import Mathlib

/-!
Verification of the spend-transaction draft construction step
(`src/gui/src/app/state/spend/step.rs`): a shallow embedding of the
`DefineSpend` state machine, its recipient validation, coin ordering, fee/size
estimation and PSBT-generation request construction, together with theorems
settling the specified properties.

External collaborators (rust-bitcoin address/amount parsing, the liana-ui form
component, the descriptor) are abstracted at their interface boundary by the
`Env` structure; 64-bit machine arithmetic is modelled by `Nat` with explicit
reduction modulo `2 ^ 64` where the source uses `u64`/`usize` operations.
-/

set_option autoImplicit false

namespace LianaSpend

/-- Modulus of 64-bit unsigned machine integers. -/
def M64 : Nat := 2 ^ 64

/-- Addition of u64 values with wrap-around (release-mode) semantics. -/
def add64 (a b : Nat) : Nat := (a + b) % M64

/-- Multiplication of u64 values with wrap-around (release-mode) semantics. -/
def mul64 (a b : Nat) : Nat := (a * b) % M64

/-- Sum of a list of u64 values with wrap-around semantics; models the
iterator sums over u64 / Amount values in the source. -/
def sum64 (l : List Nat) : Nat := l.foldl add64 0

/-- Models Rust str::parse::<u64>: an optional leading plus sign followed by
one or more ASCII digits, and the value must fit in 64 bits. -/
def parseU64 (s : String) : Option Nat :=
  let cs :=
    match s.toList with
    | '+' :: rest => rest
    | cs => cs
  if cs.isEmpty then none
  else if cs.all Char.isDigit then
    let v := cs.foldl (fun acc c => acc * 10 + (c.toNat - 48)) 0
    if v < M64 then some v else none
  else none

/-- Interface of the external rust-bitcoin / liana-ui collaborators used by the
spend step. Parsed addresses are abstracted by a code of type Nat: parseAddr
models Address::from_str (none for a parse error), validForNetwork models
Address::is_valid_for_network for the session network, spkSize models the byte
length of Address::script_pubkey, dustValue models Script::dust_value in
satoshis, and parseAmountBtc models Amount::from_str_in with
Denomination::Bitcoin, returning the parsed value in satoshis. -/
structure Env where
  parseAddr : String → Option Nat
  validForNetwork : Nat → Bool
  spkSize : Nat → Nat
  dustValue : Nat → Nat
  parseAmountBtc : String → Option Nat

/-- Modelled from the spec: the liana-ui form::Value component is not under
src/. It is a raw text field paired with an inline validity flag; a fresh
field starts empty and not-yet-judged, so its flag starts true (clearing a
field clears its error rather than reporting emptiness as an error). -/
structure FormValue where
  value : String
  valid : Bool
deriving Repr, DecidableEq

instance : Inhabited FormValue := ⟨{ value := "", valid := true }⟩

/-- Model of the daemon Coin entity as consumed here: amount in satoshis, an
abstract outpoint identifier, the optional confirmation block height and the
optional spend info. -/
structure Coin where
  amount : Nat
  outpoint : Nat
  block_height : Option Nat
  spend_info : Option Unit
deriving Repr, DecidableEq

/-- Model of the app Error type: Error::Unexpected carries its message;
daemon-side errors delivered through a Message::Psbt failure are abstracted by
a code. -/
inductive AppError where
  | unexpected (msg : String)
  | daemon (code : Nat)
deriving Repr, DecidableEq

/-- A single recipient line: address and amount form fields. -/
structure Recipient where
  address : FormValue
  amount : FormValue
deriving Repr, DecidableEq

instance : Inhabited Recipient := ⟨{ address := default, amount := default }⟩

/-- Abstraction of LianaDescriptor: only max_sat_weight is consumed by this
step. -/
structure LianaDescriptor where
  max_sat_weight : Nat
deriving Repr, DecidableEq

/-- The fixed dust floor constant DUST_OUTPUT_SATS of the source. -/
def DUST_OUTPUT_SATS : Nat := 5000

/-- Model of Recipient::amount: parse and validate the amount field, returning
the value in satoshis. -/
def Recipient.amountSats (env : Env) (r : Recipient) : Except AppError Nat :=
  if r.amount.value.isEmpty then
    Except.error (AppError.unexpected "Amount should be non-zero")
  else
    match env.parseAmountBtc r.amount.value with
    | none => Except.error (AppError.unexpected "cannot parse output amount")
    | some amt =>
      if amt = 0 then Except.error (AppError.unexpected "Amount should be non-zero")
      else if amt < DUST_OUTPUT_SATS then
        Except.error (AppError.unexpected "Amount should be non-zero")
      else
        match env.parseAddr r.address.value with
        | some a =>
          if amt ≤ env.dustValue a then
            Except.error (AppError.unexpected "Amount must be superior to script dust value")
          else Except.ok amt
        | none => Except.ok amt

/-- Model of Recipient::valid. -/
def Recipient.valid (r : Recipient) : Bool :=
  !r.address.value.isEmpty && r.address.valid && !r.amount.value.isEmpty && r.amount.valid

/-- view::CreateSpendMessage variants handled by DefineSpend::update. -/
inductive CreateSpendMessage where
  | addRecipient
  | deleteRecipient (i : Nat)
  | recipientEdited (i : Nat) (field : String) (text : String)
  | feerateEdited (text : String)
  | generate
  | selectCoin (i : Nat)
deriving Repr, DecidableEq

/-- Model of Recipient::update (the network argument of the source is folded
into Env.validForNetwork). -/
def Recipient.update (env : Env) (r : Recipient) (msg : CreateSpendMessage) : Recipient :=
  match msg with
  | CreateSpendMessage.recipientEdited _ "address" text =>
    let r := { r with address := { r.address with value := text } }
    match env.parseAddr r.address.value with
    | some a =>
      let r := { r with address := { r.address with valid := env.validForNetwork a } }
      if !r.amount.value.isEmpty then
        { r with amount := { r.amount with valid := (r.amountSats env).isOk } }
      else r
    | none =>
      if r.address.value.isEmpty then
        { r with address := { r.address with valid := true } }
      else { r with address := { r.address with valid := false } }
  | CreateSpendMessage.recipientEdited _ "amount" text =>
    let r := { r with amount := { r.amount with value := text } }
    if !r.amount.value.isEmpty then
      { r with amount := { r.amount with valid := (r.amountSats env).isOk } }
    else { r with amount := { r.amount with valid := true } }
  | _ => r

/-- The DefineSpend draft state. The generated PSBT is abstracted by a code. -/
structure DefineSpend where
  balance_available : Nat
  recipients : List Recipient
  is_valid : Bool
  is_duplicate : Bool
  descriptor : LianaDescriptor
  timelock : Nat
  coins : List (Coin × Bool)
  amount_left_to_select : Option Nat
  feerate : FormValue
  generated : Option Nat
  warning : Option AppError
deriving Repr, DecidableEq

/-- Modelled from the spec: the external helper daemon::model::remaining_sequence
is not under src/ (only its caller is). It yields the number of remaining
blocks before a timelocked coin becomes spendable by the primary path: for a
coin confirmed at height h this is the saturated difference
(h + timelock) - blockheight, and for an unconfirmed coin the timelock has not
started, so at least timelock + 1 blocks remain. -/
def remaining_sequence (c : Coin) (blockheight : Nat) (timelock : Nat) : Nat :=
  match c.block_height with
  | some h => h + timelock - blockheight
  | none => timelock + 1

/-- Models Ord::cmp on Option values (Rust: None is least). -/
def optCmp : Option Nat → Option Nat → Ordering
  | none, none => Ordering.eq
  | none, some _ => Ordering.lt
  | some _, none => Ordering.gt
  | some x, some y => compare x y

/-- The comparator closure passed to Vec::sort_by in DefineSpend::new. -/
def coinCmp (blockheight timelock : Nat) (a b : Coin) : Ordering :=
  if remaining_sequence a blockheight timelock = remaining_sequence b blockheight timelock then
    compare b.amount a.amount
  else
    optCmp a.block_height b.block_height

/-- Insert an element into an already sorted list, after every element that
compares strictly smaller and before the first element it does not exceed. -/
def orderedInsertCmp {α : Type} (cmp : α → α → Ordering) (a : α) : List α → List α
  | [] => [a]
  | b :: l =>
    if cmp a b = Ordering.gt then b :: orderedInsertCmp cmp a l else a :: b :: l

/-- Models Vec::sort_by: a stable sort by a comparator (implemented as a
stable insertion sort, which agrees with any stable sort for a total
comparator). -/
def sortByStable {α : Type} (cmp : α → α → Ordering) : List α → List α
  | [] => []
  | a :: l => orderedInsertCmp cmp a (sortByStable cmp l)

/-- Model of DefineSpend::new. -/
def DefineSpend.new (descriptor : LianaDescriptor) (coins : List Coin) (timelock : Nat)
    (blockheight : Nat) : DefineSpend :=
  let balance_available :=
    sum64 ((coins.filter (fun c => c.spend_info.isNone)).map (fun c => c.amount))
  let cs := (coins.filter (fun c => c.spend_info.isNone)).map (fun c => (c, false))
  let cs := sortByStable (fun a b => coinCmp blockheight timelock a.1 b.1) cs
  { balance_available := balance_available
    recipients := [default]
    is_valid := false
    is_duplicate := false
    descriptor := descriptor
    timelock := timelock
    coins := cs
    amount_left_to_select := none
    feerate := default
    generated := none
    warning := none }

/-- Helper for DefineSpend::check_valid: the indexed loop over recipients,
carrying the list of strictly-earlier recipients together with the validity
and duplicate accumulators. -/
def checkRecipients : List Recipient → List Recipient → Bool → Bool → Bool × Bool
  | [], _, v, d => (v, d)
  | r :: rest, prev, v, d =>
    let v := if !r.valid then false else v
    let d :=
      if !d && !r.address.value.isEmpty then
        prev.any (fun p => p.address.value == r.address.value)
      else d
    checkRecipients rest (prev ++ [r]) v d

/-- Model of DefineSpend::check_valid. -/
def DefineSpend.check_valid (s : DefineSpend) : DefineSpend :=
  let v := s.feerate.valid && !s.feerate.value.isEmpty
  let v := if !(s.coins.any (fun c => c.2)) then false else v
  let vd := checkRecipients s.recipients [] v false
  { s with is_valid := vd.1, is_duplicate := vd.2 }

/-- Byte length of the Bitcoin CompactSize encoding of n. -/
def compactSizeLen (n : Nat) : Nat :=
  if n < 253 then 1 else if n < 65536 then 3 else if n < 4294967296 then 5 else 9

/-- An output of the dummy template transaction: the script_pubkey byte length
and the value in satoshis. -/
structure TemplateTxOut where
  spk_size : Nat
  value : Nat
deriving Repr, DecidableEq

/-- Models rust-bitcoin Transaction::vsize for the template built inside
amount_left_to_select: a transaction whose inputs are TxIn::default() (36-byte
outpoint, empty script_sig, 4-byte sequence, no witness data), so the virtual
size equals the base serialized size: 4-byte version, the input and output
counts as CompactSize, 41 bytes per input, each output's 8-byte value plus its
script length prefix and script, and the 4-byte lock time. -/
def txVsize (inputCount : Nat) (output : List TemplateTxOut) : Nat :=
  4 + compactSizeLen inputCount + 41 * inputCount + compactSizeLen output.length
    + (output.map (fun o => 8 + compactSizeLen o.spk_size + o.spk_size)).sum + 4

/-- The template outputs of amount_left_to_select: one TxOut per valid
recipient, whose address and amount are unwrapped (none models the panic of
those unwraps failing). -/
def buildTemplateOutputs (env : Env) : List Recipient → Option (List TemplateTxOut)
  | [] => some []
  | r :: rest =>
    if r.valid then
      match env.parseAddr r.address.value, r.amountSats env with
      | some a, Except.ok v =>
        (buildTemplateOutputs env rest).map
          (fun l => { spk_size := env.spkSize a, value := v } :: l)
      | _, _ => none
    else buildTemplateOutputs env rest

/-- The CHANGE_TXO_SIZE constant of the source. -/
def CHANGE_TXO_SIZE : Nat := 8 + 1 + 1 + 1 + 32

/-- Model of DefineSpend::amount_left_to_select. The outer Option models a
panic (an unwrap on an invalid-but-flagged-valid recipient); the inner Option
is the value stored into the amount_left_to_select field. -/
def DefineSpend.amountLeftCalc (env : Env) (s : DefineSpend) : Option (Option Nat) :=
  match parseU64 s.feerate.value with
  | none => some none
  | some feerate =>
    let selected_coins := (s.coins.filter (fun c => c.2)).map (fun c => c.1)
    match buildTemplateOutputs env s.recipients with
    | none => none
    | some output =>
      let satisfaction_vsize := s.descriptor.max_sat_weight / 4
      let transaction_size :=
        add64 (add64 (txVsize selected_coins.length output)
          (mul64 satisfaction_vsize selected_coins.length)) CHANGE_TXO_SIZE
      let selected_amount := sum64 (selected_coins.map (fun c => c.amount))
      let output_sum := sum64 (output.map (fun o => o.value))
      let needed_amount := add64 (mul64 transaction_size feerate) output_sum
      some (some (needed_amount - selected_amount))

/-- The request handed to Daemon::create_spend_tx. -/
structure Request where
  inputs : List Nat
  outputs : List (Nat × Nat)
  feerate_vb : Nat
deriving Repr, DecidableEq

/-- Models HashMap::insert for the outputs map: replace the value of an
existing key, otherwise add the binding. -/
def hmInsert (m : List (Nat × Nat)) (k v : Nat) : List (Nat × Nat) :=
  if m.any (fun p => p.1 == k) then
    m.map (fun p => if p.1 == k then (k, v) else p)
  else m ++ [(k, v)]

/-- Models HashMap lookup for the outputs map. -/
def hmGet (m : List (Nat × Nat)) (k : Nat) : Option Nat :=
  (m.find? (fun p => p.1 == k)).map (fun p => p.2)

/-- The outputs map built by the Generate branch: for every recipient, in list
order, insert the parsed address and the validated amount; none models the
panic of the two expects failing. -/
def buildOutputsMap (env : Env) : List Recipient → List (Nat × Nat) → Option (List (Nat × Nat))
  | [], m => some m
  | r :: rest, m =>
    match env.parseAddr r.address.value, r.amountSats env with
    | some a, Except.ok v => buildOutputsMap env rest (hmInsert m a v)
    | _, _ => none

/-- The messages reaching DefineSpend::update: the view messages and the
asynchronous PSBT result. -/
inductive Msg where
  | view (m : CreateSpendMessage)
  | psbt (res : Except AppError Nat)

/-- The commands returned by DefineSpend::update that carry behaviour: the
spawned create_spend_tx request, or the auto-advance to the next step. -/
inductive Effect where
  | generate (req : Request)
  | next
deriving Repr, DecidableEq

/-- Model of DefineSpend::update. none models a panic; the Effect component
models the returned Command. -/
def DefineSpend.step (env : Env) (s : DefineSpend) (msg : Msg) :
    Option (DefineSpend × Option Effect) :=
  match msg with
  | Msg.view vmsg =>
    match vmsg with
    | CreateSpendMessage.addRecipient =>
      some (({ s with recipients := s.recipients ++ [default] } : DefineSpend).check_valid, none)
    | CreateSpendMessage.deleteRecipient i =>
      if i < s.recipients.length then
        some (({ s with recipients := s.recipients.eraseIdx i } : DefineSpend).check_valid, none)
      else none
    | CreateSpendMessage.recipientEdited i field text =>
      if i < s.recipients.length then
        some (({ s with
          recipients := s.recipients.modify
            (fun r => r.update env (CreateSpendMessage.recipientEdited i field text)) i } :
              DefineSpend).check_valid, none)
      else none
    | CreateSpendMessage.feerateEdited text =>
      match parseU64 text with
      | some v =>
        let s := { s with feerate := { value := text, valid := v != 0 } }
        match s.amountLeftCalc env with
        | none => none
        | some alts =>
          some (({ s with amount_left_to_select := alts, warning := none } :
            DefineSpend).check_valid, none)
      | none =>
        if text.isEmpty then
          some (({ s with
            feerate := { value := "", valid := true },
            amount_left_to_select := none,
            warning := none } : DefineSpend).check_valid, none)
        else
          some (({ s with
            feerate := { s.feerate with valid := false },
            amount_left_to_select := none,
            warning := none } : DefineSpend).check_valid, none)
    | CreateSpendMessage.generate =>
      let inputs := (s.coins.filter (fun c => c.2)).map (fun c => c.1.outpoint)
      match buildOutputsMap env s.recipients [] with
      | none => none
      | some outputs =>
        let feerate_vb := (parseU64 s.feerate.value).getD 0
        some ({ s with warning := none },
          some (Effect.generate { inputs := inputs, outputs := outputs, feerate_vb := feerate_vb }))
    | CreateSpendMessage.selectCoin i =>
      match s.coins.get? i with
      | some _ =>
        let s := { s with coins := s.coins.modify (fun c => (c.1, !c.2)) i }
        match s.amountLeftCalc env with
        | none => none
        | some alts =>
          some (({ s with amount_left_to_select := alts } : DefineSpend).check_valid, none)
      | none => some (s.check_valid, none)
  | Msg.psbt res =>
    match res with
    | Except.ok p => some ({ s with generated := some p }, some Effect.next)
    | Except.error e => some ({ s with warning := some e }, none)

/-- Run a sequence of messages through DefineSpend::update, dropping the
returned commands. -/
def DefineSpend.runMsgs (env : Env) : DefineSpend → List Msg → Option DefineSpend
  | s, [] => some s
  | s, m :: ms =>
    match s.step env m with
    | none => none
    | some (t, _) => t.runMsgs env ms

/-- The template output a valid recipient contributes, stated directly from
the interface functions (the specification-side counterpart of the source's
per-recipient TxOut). -/
def recipientOutput (env : Env) (r : Recipient) : Option TemplateTxOut :=
  match env.parseAddr r.address.value, r.amountSats env with
  | some a, Except.ok v => some { spk_size := env.spkSize a, value := v }
  | _, _ => none

/-- A feerate form field is coherent: when flagged valid and non-empty, its
text parses to a positive integer. This is an invariant of every reachable
draft state. -/
def FeerateOk (fv : FormValue) : Prop :=
  fv.valid = true → fv.value ≠ "" → ∃ v, parseU64 fv.value = some v ∧ 0 < v

/-- The aggregate-validity consequence carried by every reachable draft
state: a true is_valid flag guarantees a positive parsed feerate, at least
one selected coin and individually valid recipients. -/
def IsValidOk (s : DefineSpend) : Prop :=
  s.is_valid = true →
    (s.feerate.value ≠ "" ∧ ∃ v, parseU64 s.feerate.value = some v ∧ 0 < v)
      ∧ s.coins.any (fun c => c.2) = true ∧ ∀ r ∈ s.recipients, r.valid = true

instance : Inhabited DefineSpend :=
  ⟨DefineSpend.new { max_sat_weight := 0 } [] 0 0⟩

/-- A concrete instantiation of the external interface, used to evaluate the
model at concrete inputs: exactly the string addrX parses as an address. -/
def envA : Env :=
  { parseAddr := fun s => if s = "addrX" then some 7 else none
    validForNetwork := fun _ => true
    spkSize := fun _ => 34
    dustValue := fun _ => 330
    parseAmountBtc := fun s =>
      if s = "0" then some 0
      else if s = "1" then some 100000000
      else if s = "2" then some 200000000
      else none }

/-- A confirmed, unspent concrete coin. -/
def coinA : Coin :=
  { amount := 10000, outpoint := 0, block_height := some 100, spend_info := none }

/-- An unconfirmed, unspent concrete coin. -/
def coinB : Coin :=
  { amount := 500, outpoint := 1, block_height := none, spend_info := none }

/-- A concrete descriptor abstraction. -/
def descA : LianaDescriptor := { max_sat_weight := 100 }

/-- A concrete message sequence: select the only coin, set a feerate, then
fill two recipients with the same valid address and valid amounts. -/
def msgsC1 : List Msg :=
  [Msg.view (CreateSpendMessage.selectCoin 0),
   Msg.view (CreateSpendMessage.feerateEdited "1"),
   Msg.view CreateSpendMessage.addRecipient,
   Msg.view (CreateSpendMessage.recipientEdited 0 "address" "addrX"),
   Msg.view (CreateSpendMessage.recipientEdited 0 "amount" "1"),
   Msg.view (CreateSpendMessage.recipientEdited 1 "address" "addrX"),
   Msg.view (CreateSpendMessage.recipientEdited 1 "amount" "1")]

/-- The state reached by msgsC1 from a fresh session over one coin. -/
def stC1 : DefineSpend :=
  (DefineSpend.runMsgs envA (DefineSpend.new descA [coinA] 10 200) msgsC1).getD default

/-- A recipient carrying the valid address and a 1 BTC amount. -/
def recipX1 : Recipient :=
  { address := { value := "addrX", valid := true }
    amount := { value := "1", valid := true } }

/-- A recipient carrying the same address and a 2 BTC amount. -/
def recipX2 : Recipient :=
  { address := { value := "addrX", valid := true }
    amount := { value := "2", valid := true } }

/-- A recipient whose amount field holds the text 0. -/
def recipZero : Recipient :=
  { address := default, amount := { value := "0", valid := true } }

/-- A concrete draft with two duplicate-address recipients, for exercising
the Generate request construction. -/
def sC3 : DefineSpend :=
  { balance_available := 0
    recipients := [recipX1, recipX2]
    is_valid := true
    is_duplicate := true
    descriptor := descA
    timelock := 10
    coins := []
    amount_left_to_select := none
    feerate := { value := "", valid := true }
    generated := none
    warning := none }

/-- The request produced by the Generate branch from sC3. -/
def reqC3 : Request := { inputs := [], outputs := [(7, 200000000)], feerate_vb := 0 }

/-- A concrete draft with a selected coin, one valid recipient and feerate
text 10. -/
def sC4 : DefineSpend :=
  { balance_available := 10000
    recipients := [recipX1]
    is_valid := false
    is_duplicate := false
    descriptor := descA
    timelock := 10
    coins := [(coinA, true)]
    amount_left_to_select := none
    feerate := { value := "10", valid := true }
    generated := none
    warning := none }

/-- A concrete overfunded draft: one selected 10000-sat coin, no valid
recipient, feerate text 1. -/
def sC5 : DefineSpend :=
  { balance_available := 10000
    recipients := []
    is_valid := false
    is_duplicate := false
    descriptor := descA
    timelock := 10
    coins := [(coinA, true)]
    amount_left_to_select := none
    feerate := { value := "1", valid := true }
    generated := none
    warning := none }

/-- The state reached from a fresh session over one coin by editing the
feerate to the text 7. -/
def stC7 : DefineSpend :=
  (((DefineSpend.new descA [coinA] 10 200).step envA
    (Msg.view (CreateSpendMessage.feerateEdited "7"))).map Prod.fst).getD default

/-- A concrete draft whose stored amount_left_to_select is up to date with
respect to its fields (feerate 5, nothing selected, no valid recipient). -/
def sC10 : DefineSpend :=
  { balance_available := 10000
    recipients := [default]
    is_valid := false
    is_duplicate := false
    descriptor := descA
    timelock := 10
    coins := [(coinA, false)]
    amount_left_to_select := some 265
    feerate := { value := "5", valid := true }
    generated := none
    warning := none }

/-! ### Basic lemmas about the embedded operations -/

theorem sum64_foldl (l : List Nat) (a : Nat) :
    l.foldl add64 (a % M64) = (a + l.sum) % M64 := by
  induction l generalizing a with
  | nil => simp
  | cons b t ih =>
    simp only [List.foldl_cons, List.sum_cons]
    have h1 : add64 (a % M64) b = (a + b) % M64 := by
      simp [add64, Nat.mod_add_mod]
    rw [h1, ih (a + b), Nat.add_assoc]

theorem sum64_eq (l : List Nat) : sum64 l = l.sum % M64 := by
  have h := sum64_foldl l 0
  simpa [sum64] using h

@[simp] theorem check_valid_coins (s : DefineSpend) : s.check_valid.coins = s.coins := rfl

@[simp] theorem check_valid_feerate (s : DefineSpend) : s.check_valid.feerate = s.feerate := rfl

@[simp] theorem check_valid_recipients (s : DefineSpend) :
    s.check_valid.recipients = s.recipients := rfl

@[simp] theorem check_valid_amount_left (s : DefineSpend) :
    s.check_valid.amount_left_to_select = s.amount_left_to_select := rfl

@[simp] theorem check_valid_balance (s : DefineSpend) :
    s.check_valid.balance_available = s.balance_available := rfl

@[simp] theorem check_valid_descriptor (s : DefineSpend) :
    s.check_valid.descriptor = s.descriptor := rfl

theorem checkRecipients_fst (l prev : List Recipient) (v d : Bool) :
    (checkRecipients l prev v d).1 = (v && l.all Recipient.valid) := by
  induction l generalizing prev v d with
  | nil => simp [checkRecipients]
  | cons r t ih =>
    simp only [checkRecipients, List.all_cons]
    rw [ih]
    cases hr : r.valid <;> cases v <;> simp [hr]

theorem check_valid_is_valid (s : DefineSpend) :
    s.check_valid.is_valid =
      (s.coins.any (fun c => c.2) && (s.feerate.valid && !s.feerate.value.isEmpty)
        && s.recipients.all Recipient.valid) := by
  show (checkRecipients s.recipients []
    (if !(s.coins.any (fun c => c.2)) then false
      else s.feerate.valid && !s.feerate.value.isEmpty) false).1 = _
  rw [checkRecipients_fst]
  cases h : s.coins.any (fun c => c.2) <;> simp [h]

/-! ### Reachability invariants used by the aggregate-validity claim -/

theorem check_valid_isValidOk (u : DefineSpend) (hu : FeerateOk u.feerate) :
    IsValidOk u.check_valid := by
  intro hv
  rw [check_valid_is_valid] at hv
  simp only [Bool.and_eq_true, List.all_eq_true] at hv
  obtain ⟨⟨hany, hfv, hne⟩, hall⟩ := hv
  have hne' : u.feerate.value ≠ "" := by
    intro h
    rw [h] at hne
    exact absurd hne (by decide)
  refine ⟨⟨hne', hu hfv hne'⟩, hany, hall⟩

theorem step_inv (env : Env) (s : DefineSpend) (msg : Msg) (t : DefineSpend)
    (eff : Option Effect) (h : s.step env msg = some (t, eff))
    (hs : FeerateOk s.feerate ∧ IsValidOk s) :
    FeerateOk t.feerate ∧ IsValidOk t := by
  cases msg with
  | psbt res =>
    cases res with
    | ok p =>
      simp only [DefineSpend.step, Option.some.injEq, Prod.mk.injEq] at h
      obtain ⟨h1, h2⟩ := h
      subst h1
      exact hs
    | error e =>
      simp only [DefineSpend.step, Option.some.injEq, Prod.mk.injEq] at h
      obtain ⟨h1, h2⟩ := h
      subst h1
      exact hs
  | view vm =>
    cases vm with
    | addRecipient =>
      simp only [DefineSpend.step, Option.some.injEq, Prod.mk.injEq] at h
      obtain ⟨h1, h2⟩ := h
      subst h1
      exact ⟨hs.1, check_valid_isValidOk _ hs.1⟩
    | deleteRecipient i =>
      simp only [DefineSpend.step] at h
      split at h
      · simp only [Option.some.injEq, Prod.mk.injEq] at h
        obtain ⟨h1, h2⟩ := h
        subst h1
        exact ⟨hs.1, check_valid_isValidOk _ hs.1⟩
      · exact absurd h (by simp)
    | recipientEdited i field text =>
      simp only [DefineSpend.step] at h
      split at h
      · simp only [Option.some.injEq, Prod.mk.injEq] at h
        obtain ⟨h1, h2⟩ := h
        subst h1
        exact ⟨hs.1, check_valid_isValidOk _ hs.1⟩
      · exact absurd h (by simp)
    | feerateEdited text =>
      simp only [DefineSpend.step] at h
      split at h
      · rename_i v hv
        split at h
        · exact absurd h (by simp)
        · rename_i alts halts
          simp only [Option.some.injEq, Prod.mk.injEq] at h
          obtain ⟨h1, h2⟩ := h
          subst h1
          have hfo : FeerateOk (FormValue.mk text (v != 0)) := by
            intro hval _
            refine ⟨v, hv, ?_⟩
            simp only [bne_iff_ne, ne_eq, decide_eq_true_eq] at hval
            omega
          exact ⟨hfo, check_valid_isValidOk _ hfo⟩
      · split at h
        · simp only [Option.some.injEq, Prod.mk.injEq] at h
          obtain ⟨h1, h2⟩ := h
          subst h1
          have hfo : FeerateOk (FormValue.mk "" true) := by
            intro _ hne
            exact absurd rfl hne
          exact ⟨hfo, check_valid_isValidOk _ hfo⟩
        · simp only [Option.some.injEq, Prod.mk.injEq] at h
          obtain ⟨h1, h2⟩ := h
          subst h1
          have hfo : FeerateOk (FormValue.mk s.feerate.value false) := by
            intro hval _
            simp at hval
          exact ⟨hfo, check_valid_isValidOk _ hfo⟩
    | generate =>
      simp only [DefineSpend.step] at h
      split at h
      · exact absurd h (by simp)
      · simp only [Option.some.injEq, Prod.mk.injEq] at h
        obtain ⟨h1, h2⟩ := h
        subst h1
        exact hs
    | selectCoin i =>
      simp only [DefineSpend.step] at h
      split at h
      · rename_i c hc
        split at h
        · exact absurd h (by simp)
        · rename_i alts halts
          simp only [Option.some.injEq, Prod.mk.injEq] at h
          obtain ⟨h1, h2⟩ := h
          subst h1
          exact ⟨hs.1, check_valid_isValidOk _ hs.1⟩
      · simp only [Option.some.injEq, Prod.mk.injEq] at h
        obtain ⟨h1, h2⟩ := h
        subst h1
        exact ⟨hs.1, check_valid_isValidOk _ hs.1⟩

theorem runMsgs_inv (env : Env) (msgs : List Msg) (s t : DefineSpend)
    (h : s.runMsgs env msgs = some t)
    (hs : FeerateOk s.feerate ∧ IsValidOk s) :
    FeerateOk t.feerate ∧ IsValidOk t := by
  induction msgs generalizing s with
  | nil =>
    simp only [DefineSpend.runMsgs, Option.some.injEq] at h
    exact h ▸ hs
  | cons m ms ih =>
    simp only [DefineSpend.runMsgs] at h
    split at h
    · exact absurd h (by simp)
    · rename_i st eff hp
      exact ih _ h (step_inv env s m st eff hp hs)

theorem new_inv (d : LianaDescriptor) (cs : List Coin) (tl bh : Nat) :
    FeerateOk (DefineSpend.new d cs tl bh).feerate ∧ IsValidOk (DefineSpend.new d cs tl bh) := by
  constructor
  · intro _ hne
    exact absurd rfl hne
  · intro hv
    exact absurd hv (by simp [DefineSpend.new])

/-! ### Claim C1 -/

/-- C1 (amended): after check_valid runs following any edit — i.e. in any
state reachable from a fresh session — is_valid is true only if the feerate
field is non-empty and parses to a positive integer, at least one coin is
selected, and every recipient is individually valid. The original claim's
further conjunct — no two non-empty recipient addresses textually equal — is
dropped: duplicates only set is_duplicate and do not make is_valid false. -/
theorem check_valid_only_if_amended (env : Env) (d : LianaDescriptor) (cs : List Coin)
    (tl bh : Nat) (msgs : List Msg) (s : DefineSpend)
    (h : (DefineSpend.new d cs tl bh).runMsgs env msgs = some s)
    (hv : s.is_valid = true) :
    (s.feerate.value ≠ "" ∧ ∃ v, parseU64 s.feerate.value = some v ∧ 0 < v)
      ∧ s.coins.any (fun c => c.2) = true
      ∧ ∀ r ∈ s.recipients, r.valid = true :=
  (runMsgs_inv env msgs _ s h (new_inv d cs tl bh)).2 hv

/-- Witness for C1 (amended), at the concrete state reached by msgsC1. -/
theorem check_valid_only_if_amended_witness :
    (stC1.feerate.value ≠ "" ∧ ∃ v, parseU64 stC1.feerate.value = some v ∧ 0 < v)
      ∧ stC1.coins.any (fun c => c.2) = true
      ∧ ∀ r ∈ stC1.recipients, r.valid = true :=
  check_valid_only_if_amended envA descA [coinA] 10 200 msgsC1 stC1 (by decide) (by decide)

/-- Counterexample for C1 as stated: after edits that leave two recipients
with the same non-empty valid address, check_valid leaves is_valid true (and
sets is_duplicate), contradicting the claim that is_valid is true only if no
two non-empty recipient addresses are textually equal. -/
theorem check_valid_duplicate_counterexample :
    ((DefineSpend.new descA [coinA] 10 200).runMsgs envA msgsC1).map
      (fun st => (st.is_valid, st.is_duplicate, st.recipients.map (fun r => r.address.value)))
      = some (true, true, ["addrX", "addrX"]) := by decide

/-! ### Claim C2 -/

/-- C2: the sort of the selectable coin list is not ascending in the
remaining sequence. DefineSpend::new sorts with a comparator that falls back
to comparing block_height (None least) when the remaining sequences differ,
so the unconfirmed coin coinB (remaining sequence timelock + 1 = 11) is
placed before the matured confirmed coin coinA (remaining sequence 0),
against the claimed order and the source's own comment that this puts the
smallest remaining_sequence first. -/
theorem coin_sort_unconfirmed_first_bug :
    (DefineSpend.new descA [coinA, coinB] 10 200).coins.map (fun c => c.1.outpoint) = [1, 0]
      ∧ remaining_sequence coinA 200 10 < remaining_sequence coinB 200 10
      ∧ coinB.block_height = none ∧ coinA.block_height = some 100 := by decide

/-! ### Claim C8 -/

/-- C8: a failed PSBT result stores the error as the single top-level warning
and leaves every other field of the draft unchanged — recipients, coin
selection flags, feerate and the generated field keep their prior values, no
transaction is treated as generated, and no command is issued. -/
theorem psbt_error_preserves_state (env : Env) (s : DefineSpend) (e : AppError) :
    s.step env (Msg.psbt (Except.error e)) = some ({ s with warning := some e }, none) := rfl

/-! ### Claim C9 -/

/-- C9: the feerate carried by the Generate request is the feerate text
parsed as an unsigned integer, falling back to 0 whenever that parse fails. -/
theorem generate_feerate_fallback (env : Env) (s t : DefineSpend) (req : Request)
    (h : s.step env (Msg.view CreateSpendMessage.generate)
      = some (t, some (Effect.generate req))) :
    req.feerate_vb = (parseU64 s.feerate.value).getD 0 := by
  simp only [DefineSpend.step] at h
  split at h
  · exact absurd h (by simp)
  · simp only [Option.some.injEq, Prod.mk.injEq, Effect.generate.injEq] at h
    obtain ⟨h1, h2⟩ := h
    subst h2
    rfl

/-- Witness for C9 at the concrete draft sC3 (empty feerate text, so the
fallback 0 is exercised). -/
theorem generate_feerate_fallback_witness :
    reqC3.feerate_vb = (parseU64 sC3.feerate.value).getD 0 :=
  generate_feerate_fallback envA sC3 sC3 reqC3 (by decide)

/-! ### Claim C6 -/

/-- C6: recipient amount validation succeeds exactly when the amount field is
non-empty, the text parses as a decimal in the whole-coin unit, the parsed
satoshi value is neither 0 nor below the fixed 5000-satoshi dust floor, and —
whenever the paired address field parses to an address — the value strictly
exceeds that address's script dust value; and the amount text 0 fails with
the zero/dust error message, not the parse error. On success the parsed
satoshi amount is returned. -/
theorem recipient_amount_spec (env : Env) (r : Recipient) :
    (∀ v, r.amountSats env = Except.ok v ↔
      (r.amount.value ≠ "" ∧ env.parseAmountBtc r.amount.value = some v ∧ v ≠ 0
        ∧ ¬ v < DUST_OUTPUT_SATS
        ∧ ∀ a, env.parseAddr r.address.value = some a → env.dustValue a < v))
    ∧ (r.amount.value = "0" → env.parseAmountBtc "0" = some 0 →
      r.amountSats env = Except.error (AppError.unexpected "Amount should be non-zero")) := by
  constructor
  · intro v
    unfold Recipient.amountSats
    cases hemp : r.amount.value.isEmpty with
    | true =>
      have hv0 : r.amount.value = "" := (String.isEmpty_iff r.amount.value).mp hemp
      simp [hv0]
    | false =>
      have hv0 : r.amount.value ≠ "" := by
        intro hc
        rw [hc] at hemp
        exact absurd hemp (by decide)
      cases hp : env.parseAmountBtc r.amount.value with
      | none => simp [hemp, hp, hv0]
      | some amt =>
        by_cases h0 : amt = 0
        · subst h0
          simp [hemp, hp, hv0]
          rintro rfl h2 _
          exact absurd rfl h2
        · by_cases hdf : amt < DUST_OUTPUT_SATS
          · simp [hemp, hp, hv0, h0, hdf]
            rintro rfl h2 h3
            exact absurd h3 (by omega)
          · cases hpa : env.parseAddr r.address.value with
            | none =>
              simp [hemp, hp, hpa, hv0, h0, hdf]
              rintro rfl
              exact ⟨h0, by omega⟩
            | some a =>
              by_cases hd : amt ≤ env.dustValue a
              · simp [hemp, hp, hpa, hv0, h0, hdf, hd]
                rintro rfl h2 h3
                exact hd
              · simp [hemp, hp, hpa, hv0, h0, hdf, hd]
                rintro rfl
                exact ⟨h0, by omega, by omega⟩
  · intro h0 hp0
    rw [Recipient.amountSats, h0, hp0]
    simp

/-- Witness for C6: the recipient whose amount field holds the text 0 fails
with the zero/dust error message under the concrete interface. -/
theorem recipient_amount_spec_witness :
    recipZero.amountSats envA = Except.error (AppError.unexpected "Amount should be non-zero") :=
  (recipient_amount_spec envA recipZero).2 (by decide) (by decide)

/-! ### Claims C7 and C10: the estimator's stored value across edits -/

theorem amountLeftCalc_some (env : Env) (u : DefineSpend) (f : Nat)
    (hf : parseU64 u.feerate.value = some f) (alts : Option Nat)
    (h : u.amountLeftCalc env = some alts) : ∃ x, alts = some x := by
  simp only [DefineSpend.amountLeftCalc, hf] at h
  split at h
  · exact absurd h (by simp)
  · simp only [Option.some.injEq] at h
    exact ⟨_, h.symm⟩

theorem amountLeftCalc_congr (env : Env) (u w : DefineSpend)
    (hf : u.feerate.value = w.feerate.value) (hc : u.coins = w.coins)
    (hr : u.recipients = w.recipients) (hd : u.descriptor = w.descriptor) :
    u.amountLeftCalc env = w.amountLeftCalc env := by
  unfold DefineSpend.amountLeftCalc
  rw [hf, hc, hr, hd]

theorem modify_flip_flip (l : List (Coin × Bool)) (i : Nat) :
    (l.modify (fun c => (c.1, !c.2)) i).modify (fun c => (c.1, !c.2)) i = l := by
  induction l generalizing i with
  | nil => simp [List.modify_nil]
  | cons a t ih =>
    cases i with
    | zero =>
      show ((a.1, !!a.2) :: t) = a :: t
      simp
    | succ n => exact congrArg (a :: ·) (ih n)

theorem step_selectCoin (env : Env) (s : DefineSpend) (i : Nat) (hi : i < s.coins.length)
    (alts : Option Nat)
    (halts : DefineSpend.amountLeftCalc env
      { s with coins := s.coins.modify (fun c => (c.1, !c.2)) i } = some alts) :
    s.step env (Msg.view (CreateSpendMessage.selectCoin i)) =
      some (({ s with
        coins := s.coins.modify (fun c => (c.1, !c.2)) i,
        amount_left_to_select := alts } : DefineSpend).check_valid, none) := by
  have hget : s.coins.get? i = some (s.coins.get ⟨i, hi⟩) := List.get?_eq_get hi
  simp only [DefineSpend.step, hget, halts]

/-- C7 (amended): after a feerate edit the stored amount_left_to_select is
None iff the text of that edit is empty or fails to parse as an unsigned
integer, and after an in-range coin toggle it is None iff the stored feerate
text is empty or fails to parse. On a failed non-empty feerate edit the
stored feerate text keeps its previous value, which may itself still parse —
the original claim's iff against the stored field fails in exactly that
case. -/
theorem amount_left_none_iff_amended (env : Env) (s : DefineSpend) (text : String) (i : Nat) :
    (∀ t eff, s.step env (Msg.view (CreateSpendMessage.feerateEdited text)) = some (t, eff) →
      (t.amount_left_to_select = none ↔ parseU64 text = none))
    ∧ (∀ t eff, i < s.coins.length →
      s.step env (Msg.view (CreateSpendMessage.selectCoin i)) = some (t, eff) →
      (t.amount_left_to_select = none ↔ parseU64 s.feerate.value = none)) := by
  constructor
  · intro t eff h
    simp only [DefineSpend.step] at h
    split at h
    · rename_i v hv
      split at h
      · exact absurd h (by simp)
      · rename_i alts halts
        simp only [Option.some.injEq, Prod.mk.injEq] at h
        obtain ⟨h1, h2⟩ := h
        subst h1
        obtain ⟨x, rfl⟩ := amountLeftCalc_some env _ v hv alts halts
        simp [hv]
    · rename_i hv
      split at h
      · simp only [Option.some.injEq, Prod.mk.injEq] at h
        obtain ⟨h1, h2⟩ := h
        subst h1
        simp [hv]
      · simp only [Option.some.injEq, Prod.mk.injEq] at h
        obtain ⟨h1, h2⟩ := h
        subst h1
        simp [hv]
  · intro t eff hi h
    simp only [DefineSpend.step] at h
    split at h
    · rename_i c hc
      split at h
      · exact absurd h (by simp)
      · rename_i alts halts
        simp only [Option.some.injEq, Prod.mk.injEq] at h
        obtain ⟨h1, h2⟩ := h
        subst h1
        cases hp : parseU64 s.feerate.value with
        | none =>
          have halts' : alts = none := by
            simp only [DefineSpend.amountLeftCalc, hp, Option.some.injEq] at halts
            exact halts.symm
          subst halts'
          simp [hp]
        | some f =>
          obtain ⟨x, rfl⟩ := amountLeftCalc_some env
            { s with coins := s.coins.modify (fun c => (c.1, !c.2)) i } f hp alts halts
          simp [hp]
    · rename_i hc
      rw [List.get?_eq_get hi] at hc
      exact absurd hc (by simp)

/-- Witness for C7 (amended): editing the feerate to the text 7 stores a
non-None amount_left_to_select, matching the parse success of 7. -/
theorem amount_left_none_iff_amended_witness :
    stC7.amount_left_to_select = none ↔ parseU64 "7" = none :=
  (amount_left_none_iff_amended envA (DefineSpend.new descA [coinA] 10 200) "7" 0).1
    stC7 none (by decide)

/-- Counterexample for C7 as stated: after editing the feerate to 5 and then
to the unparsable text 5x, the stored amount_left_to_select is None while the
stored feerate field still holds the earlier text 5, which is non-empty and
parses — so the claimed iff against the stored field fails. -/
theorem amount_left_none_iff_counterexample :
    ((DefineSpend.new descA [coinA] 10 200).runMsgs envA
      [Msg.view (CreateSpendMessage.feerateEdited "5"),
       Msg.view (CreateSpendMessage.feerateEdited "5x")]).map
      (fun st => (st.amount_left_to_select, st.feerate.value)) = some (none, "5")
      ∧ parseU64 "5" = some 5 := by decide

/-- C10 (amended): from any draft state whose stored amount_left_to_select is
up to date with respect to its current fields (which also rules out a panic
of the recomputation), toggling a coin twice restores amount_left_to_select
and balance_available to exactly their pre-toggle values; the original
claim's unconditional version fails on states holding a stale stored value. -/
theorem toggle_twice_restores (env : Env) (s : DefineSpend) (i : Nat)
    (hi : i < s.coins.length)
    (hup : s.amountLeftCalc env = some s.amount_left_to_select) :
    (s.runMsgs env [Msg.view (CreateSpendMessage.selectCoin i),
      Msg.view (CreateSpendMessage.selectCoin i)]).map
      (fun t => (t.amount_left_to_select, t.balance_available))
      = some (s.amount_left_to_select, s.balance_available) := by
  obtain ⟨a1, ha1⟩ : ∃ a, DefineSpend.amountLeftCalc env
      { s with coins := s.coins.modify (fun c => (c.1, !c.2)) i } = some a := by
    cases hp : parseU64 s.feerate.value with
    | none => exact ⟨none, by simp [DefineSpend.amountLeftCalc, hp]⟩
    | some f =>
      cases hb : buildTemplateOutputs env s.recipients with
      | none =>
        exfalso
        simp [DefineSpend.amountLeftCalc, hp, hb] at hup
      | some outs =>
        have hcalc : (DefineSpend.amountLeftCalc env
            { s with coins := s.coins.modify (fun c => (c.1, !c.2)) i }).isSome := by
          simp [DefineSpend.amountLeftCalc, hp, hb]
        exact Option.isSome_iff_exists.mp hcalc
  have hs1 := step_selectCoin env s i hi a1 ha1
  have hi2 : i < (({ s with
      coins := s.coins.modify (fun c => (c.1, !c.2)) i,
      amount_left_to_select := a1 } : DefineSpend).check_valid).coins.length := by
    simpa [List.length_modify] using hi
  have h2calc : DefineSpend.amountLeftCalc env
      { ({ s with
          coins := s.coins.modify (fun c => (c.1, !c.2)) i,
          amount_left_to_select := a1 } : DefineSpend).check_valid with
        coins := (({ s with
          coins := s.coins.modify (fun c => (c.1, !c.2)) i,
          amount_left_to_select := a1 } : DefineSpend).check_valid).coins.modify
            (fun c => (c.1, !c.2)) i } = some s.amount_left_to_select := by
    refine Eq.trans (amountLeftCalc_congr env _ s rfl ?_ rfl rfl) hup
    simp only [check_valid_coins]
    exact modify_flip_flip s.coins i
  have hs2 := step_selectCoin env _ i hi2 s.amount_left_to_select h2calc
  simp only [DefineSpend.runMsgs, hs1, hs2]
  rfl

/-- Witness for C10 (amended) at the concrete up-to-date draft sC10. -/
theorem toggle_twice_restores_witness :
    (sC10.runMsgs envA [Msg.view (CreateSpendMessage.selectCoin 0),
      Msg.view (CreateSpendMessage.selectCoin 0)]).map
      (fun t => (t.amount_left_to_select, t.balance_available))
      = some (sC10.amount_left_to_select, sC10.balance_available) :=
  toggle_twice_restores envA sC10 0 (by decide) (by decide)

/-- Counterexample for C10 as stated: in the reachable state left by a failed
feerate edit the stored amount_left_to_select is stale (None while the stored
feerate text 5 parses); toggling the coin twice then yields the recomputed
value 265, not the pre-toggle None. -/
theorem toggle_twice_counterexample :
    ((DefineSpend.new descA [coinA] 10 200).runMsgs envA
      [Msg.view (CreateSpendMessage.feerateEdited "5"),
       Msg.view (CreateSpendMessage.feerateEdited "5x")]).map
      (fun st => st.amount_left_to_select) = some none
    ∧ ((DefineSpend.new descA [coinA] 10 200).runMsgs envA
      [Msg.view (CreateSpendMessage.feerateEdited "5"),
       Msg.view (CreateSpendMessage.feerateEdited "5x"),
       Msg.view (CreateSpendMessage.selectCoin 0),
       Msg.view (CreateSpendMessage.selectCoin 0)]).map
      (fun st => (st.amount_left_to_select, st.balance_available))
      = some (some 265, 10000) := by
  exact ⟨by decide, by decide⟩

/-! ### Claims C4 and C5: the fee and size estimation formula -/

theorem buildTemplateOutputs_eq (env : Env) (recips : List Recipient)
    (h : ∀ r ∈ recips, r.valid = true → (recipientOutput env r).isSome) :
    buildTemplateOutputs env recips
      = some ((recips.filter (fun r => r.valid)).filterMap (recipientOutput env)) := by
  induction recips with
  | nil => rfl
  | cons r rest ih =>
    have ihr := ih (fun x hx hv => h x (by simp [hx]) hv)
    by_cases hv : r.valid = true
    · cases hpa : env.parseAddr r.address.value with
      | none =>
        exfalso
        have hs := h r (by simp) hv
        simp [recipientOutput, hpa] at hs
      | some a =>
        cases hv2 : r.amountSats env with
        | error e =>
          exfalso
          have hs := h r (by simp) hv
          simp [recipientOutput, hpa, hv2] at hs
        | ok v =>
          simp only [buildTemplateOutputs, hv, if_true, hpa, hv2, ihr,
            List.filter_cons, List.filterMap_cons, recipientOutput]
          rfl
    · have hv' : r.valid = false := by
        simpa using hv
      simp only [buildTemplateOutputs, hv', Bool.false_eq_true, if_false, ihr,
        List.filter_cons]

theorem word_sub_formula (a p q c f : Nat) (l : List Nat) :
    add64 (mul64 (add64 (add64 a (mul64 p q)) c) f) (sum64 l)
      = ((a + p * q + c) * f + l.sum) % M64 := by
  simp [add64, mul64, sum64_eq, Nat.mod_add_mod, Nat.add_mod_mod, Nat.mod_mul_mod]

/-- C4: when the feerate text parses as an unsigned integer and every
recipient flagged valid has a parsable address and amount, the estimator's
result is built from a template whose outputs are exactly the valid
recipients' outputs and whose input count is the number of selected coins,
with needed = (template vsize + descriptor max satisfaction weight / 4 per
input + 43) * feerate + sum of the valid recipients' output values (stated
here below 64-bit overflow), minus the selected amount. -/
theorem amount_left_formula (env : Env) (s : DefineSpend) (f : Nat)
    (hf : parseU64 s.feerate.value = some f)
    (hout : ∀ r ∈ s.recipients, r.valid = true → (recipientOutput env r).isSome)
    (hno : (txVsize ((s.coins.filter (fun c => c.2)).length)
        ((s.recipients.filter (fun r => r.valid)).filterMap (recipientOutput env))
      + s.descriptor.max_sat_weight / 4 * (s.coins.filter (fun c => c.2)).length
      + CHANGE_TXO_SIZE) * f
      + (((s.recipients.filter (fun r => r.valid)).filterMap (recipientOutput env)).map
          (fun o => o.value)).sum < M64) :
    s.amountLeftCalc env = some (some (
      ((txVsize ((s.coins.filter (fun c => c.2)).length)
          ((s.recipients.filter (fun r => r.valid)).filterMap (recipientOutput env))
        + s.descriptor.max_sat_weight / 4 * (s.coins.filter (fun c => c.2)).length
        + CHANGE_TXO_SIZE) * f
        + (((s.recipients.filter (fun r => r.valid)).filterMap (recipientOutput env)).map
            (fun o => o.value)).sum)
      - sum64 (((s.coins.filter (fun c => c.2)).map (fun c => c.1)).map
          (fun c => c.amount)))) := by
  simp only [DefineSpend.amountLeftCalc, hf, buildTemplateOutputs_eq env s.recipients hout,
    List.length_map, Option.some.injEq]
  rw [word_sub_formula, Nat.mod_eq_of_lt hno]

/-- Witness for C4 at the concrete draft sC4 (one selected coin, one valid
recipient, feerate 10). -/
theorem amount_left_formula_witness :
    sC4.amountLeftCalc envA = some (some (
      ((txVsize ((sC4.coins.filter (fun c => c.2)).length)
          ((sC4.recipients.filter (fun r => r.valid)).filterMap (recipientOutput envA))
        + sC4.descriptor.max_sat_weight / 4 * (sC4.coins.filter (fun c => c.2)).length
        + CHANGE_TXO_SIZE) * 10
        + (((sC4.recipients.filter (fun r => r.valid)).filterMap (recipientOutput envA)).map
            (fun o => o.value)).sum)
      - sum64 (((sC4.coins.filter (fun c => c.2)).map (fun c => c.1)).map
          (fun c => c.amount)))) :=
  amount_left_formula envA sC4 10 (by decide) (by decide) (by decide)

/-- C5: the amount left to select is saturating — whenever the sum of the
selected coins' amounts (below 64-bit overflow) meets or exceeds the needed
amount computed by the estimator's formula, the stored result is exactly
some 0: overfunding is never signalled as an error, and the result, a
natural number modelling a u64, is never negative. -/
theorem amount_left_saturating (env : Env) (s : DefineSpend) (f : Nat)
    (hf : parseU64 s.feerate.value = some f)
    (hout : ∀ r ∈ s.recipients, r.valid = true → (recipientOutput env r).isSome)
    (hsel : (((s.coins.filter (fun c => c.2)).map (fun c => c.1)).map
        (fun c => c.amount)).sum < M64)
    (hge : (txVsize ((s.coins.filter (fun c => c.2)).length)
        ((s.recipients.filter (fun r => r.valid)).filterMap (recipientOutput env))
      + s.descriptor.max_sat_weight / 4 * (s.coins.filter (fun c => c.2)).length
      + CHANGE_TXO_SIZE) * f
      + (((s.recipients.filter (fun r => r.valid)).filterMap (recipientOutput env)).map
          (fun o => o.value)).sum
      ≤ (((s.coins.filter (fun c => c.2)).map (fun c => c.1)).map
          (fun c => c.amount)).sum) :
    s.amountLeftCalc env = some (some 0) := by
  simp only [DefineSpend.amountLeftCalc, hf, buildTemplateOutputs_eq env s.recipients hout,
    List.length_map, Option.some.injEq]
  rw [word_sub_formula, sum64_eq, Nat.mod_eq_of_lt hsel]
  exact Nat.sub_eq_zero_of_le (le_trans (Nat.mod_le _ _) hge)

/-- Witness for C5 at the concrete overfunded draft sC5. -/
theorem amount_left_saturating_witness :
    sC5.amountLeftCalc envA = some (some 0) :=
  amount_left_saturating envA sC5 1 (by decide) (by decide) (by decide) (by decide)

/-! ### Claim C3: the Generate outputs map keyed by address -/

theorem find?_map_replace_eq (m : List (Nat × Nat)) (k v : Nat)
    (h : m.any (fun p => p.1 == k) = true) :
    (m.map (fun p => if p.1 == k then (k, v) else p)).find? (fun p => p.1 == k)
      = some (k, v) := by
  induction m with
  | nil => simp at h
  | cons p t ih =>
    rw [List.map_cons]
    by_cases hp : p.1 = k
    · have hb : (p.1 == k) = true := by simpa using hp
      rw [if_pos hb]
      exact List.find?_cons_of_pos _ (by simp)
    · have hb : ¬ (p.1 == k) = true := by simpa using hp
      have ht : t.any (fun p => p.1 == k) = true := by
        simpa [hp] using h
      rw [if_neg hb]
      have e1 : List.find? (fun r => r.1 == k)
          (p :: List.map (fun r => if r.1 == k then (k, v) else r) t)
          = List.find? (fun r => r.1 == k)
            (List.map (fun r => if r.1 == k then (k, v) else r) t) :=
        List.find?_cons_of_neg _ hb
      rw [e1]
      exact ih ht

theorem find?_map_replace_ne (m : List (Nat × Nat)) (k v q : Nat) (hqk : q ≠ k) :
    (m.map (fun p => if p.1 == k then (k, v) else p)).find? (fun p => p.1 == q)
      = m.find? (fun p => p.1 == q) := by
  induction m with
  | nil => rfl
  | cons p t ih =>
    rw [List.map_cons]
    by_cases hp : p.1 = k
    · have hb : (p.1 == k) = true := by simpa using hp
      rw [if_pos hb]
      have hknq : ¬ (((k, v) : Nat × Nat).1 == q) = true := by
        simp
        exact fun hh => hqk hh.symm
      have hpnq : ¬ (p.1 == q) = true := by
        simp [hp]
        exact fun hh => hqk hh.symm
      have e1 : List.find? (fun r => r.1 == q)
          (((k, v) : Nat × Nat) :: List.map (fun r => if r.1 == k then (k, v) else r) t)
          = List.find? (fun r => r.1 == q)
            (List.map (fun r => if r.1 == k then (k, v) else r) t) :=
        List.find?_cons_of_neg _ hknq
      have e2 : List.find? (fun r => r.1 == q) (p :: t)
          = List.find? (fun r => r.1 == q) t :=
        List.find?_cons_of_neg _ hpnq
      rw [e1, e2, ih]
    · have hb : ¬ (p.1 == k) = true := by simpa using hp
      rw [if_neg hb]
      by_cases hq : p.1 = q
      · have e1 : List.find? (fun r => r.1 == q)
            (p :: List.map (fun r => if r.1 == k then (k, v) else r) t) = some p :=
          List.find?_cons_of_pos _ (by simpa using hq)
        have e2 : List.find? (fun r => r.1 == q) (p :: t) = some p :=
          List.find?_cons_of_pos _ (by simpa using hq)
        rw [e1, e2]
      · have e1 : List.find? (fun r => r.1 == q)
            (p :: List.map (fun r => if r.1 == k then (k, v) else r) t)
            = List.find? (fun r => r.1 == q)
              (List.map (fun r => if r.1 == k then (k, v) else r) t) :=
          List.find?_cons_of_neg _ (by simpa using hq)
        have e2 : List.find? (fun r => r.1 == q) (p :: t)
            = List.find? (fun r => r.1 == q) t :=
          List.find?_cons_of_neg _ (by simpa using hq)
        rw [e1, e2, ih]

theorem hmGet_hmInsert (m : List (Nat × Nat)) (k v q : Nat) :
    hmGet (hmInsert m k v) q = if q = k then some v else hmGet m q := by
  unfold hmInsert hmGet
  cases hany : m.any (fun p => p.1 == k) with
  | true =>
    simp only [hany, if_true]
    by_cases hq : q = k
    · subst hq
      rw [find?_map_replace_eq m q v hany]
      simp
    · rw [find?_map_replace_ne m k v q hq]
      simp [hq]
  | false =>
    simp only [hany, Bool.false_eq_true, if_false]
    rw [List.find?_append]
    by_cases hq : q = k
    · subst hq
      have hnone : m.find? (fun p => p.1 == q) = none :=
        List.find?_eq_none.mpr (by
          intro x hx
          simpa using List.any_eq_false.mp hany x hx)
      rw [hnone]
      simp
    · have h2 : List.find? (fun p => p.1 == q) [(k, v)] = none := by
        simp
        exact fun hh => hq hh.symm
      rw [h2, Option.or_none]
      simp [hq]

theorem buildOutputsMap_ok (env : Env) (recips : List Recipient) :
    ∀ m out : List (Nat × Nat), buildOutputsMap env recips m = some out →
      ∀ r ∈ recips, ∃ a w, env.parseAddr r.address.value = some a
        ∧ r.amountSats env = Except.ok w := by
  induction recips with
  | nil =>
    intro m out h r hr
    simp at hr
  | cons r0 rest ih =>
    intro m out h r hr
    cases hpa : env.parseAddr r0.address.value with
    | none =>
      cases hamt : r0.amountSats env <;> simp [buildOutputsMap, hpa, hamt] at h
    | some a =>
      cases hamt : r0.amountSats env with
      | error e => simp [buildOutputsMap, hpa, hamt] at h
      | ok w =>
        simp only [buildOutputsMap, hpa, hamt] at h
        rcases List.mem_cons.mp hr with rfl | hr2
        · exact ⟨a, w, hpa, hamt⟩
        · exact ih _ _ h r hr2

theorem buildOutputsMap_get (env : Env) (recips : List Recipient) :
    ∀ m out : List (Nat × Nat), buildOutputsMap env recips m = some out →
    ∀ k, hmGet out k =
      match (recips.filter (fun r => env.parseAddr r.address.value == some k)).getLast? with
      | some r => (r.amountSats env).toOption
      | none => hmGet m k := by
  induction recips with
  | nil =>
    intro m out h k
    simp only [buildOutputsMap, Option.some.injEq] at h
    subst h
    rfl
  | cons r0 rest ih =>
    intro m out h k
    cases hpa : env.parseAddr r0.address.value with
    | none =>
      cases hamt : r0.amountSats env <;> simp [buildOutputsMap, hpa, hamt] at h
    | some a =>
      cases hamt : r0.amountSats env with
      | error e => simp [buildOutputsMap, hpa, hamt] at h
      | ok w =>
        simp only [buildOutputsMap, hpa, hamt] at h
        have ihh := ih _ _ h k
        by_cases hak : a = k
        · subst hak
          have hpred : (env.parseAddr r0.address.value == some a) = true := by simp [hpa]
          rw [List.filter_cons, if_pos hpred]
          cases hfr : rest.filter (fun r => env.parseAddr r.address.value == some a) with
          | nil =>
            rw [ihh, hfr]
            simp only [List.getLast?_singleton]
            rw [hmGet_hmInsert]
            simp [hamt, Except.toOption]
          | cons x xs =>
            rw [ihh, hfr, List.getLast?_cons_cons]
            cases hxy : (x :: xs).getLast? with
            | none => exact absurd (List.getLast?_eq_none_iff.mp hxy) (by simp)
            | some y => rfl
        · have hpred : (env.parseAddr r0.address.value == some k) = false := by
            simp [hpa, hak]
          rw [List.filter_cons, if_neg (by simp [hpred])]
          rw [ihh]
          cases hfr : rest.filter (fun r => env.parseAddr r.address.value == some k) with
          | nil =>
            show hmGet (hmInsert m a w) k = hmGet m k
            rw [hmGet_hmInsert, if_neg (fun hh => hak hh.symm)]
          | cons x xs =>
            cases hxy : (x :: xs).getLast? with
            | none => exact absurd (List.getLast?_eq_none_iff.mp hxy) (by simp)
            | some y => rfl

theorem hmInsert_keys_nodup (m : List (Nat × Nat)) (k v : Nat)
    (h : (m.map Prod.fst).Nodup) : ((hmInsert m k v).map Prod.fst).Nodup := by
  unfold hmInsert
  split
  · rw [List.map_map]
    have he : (Prod.fst ∘ fun p : Nat × Nat => if p.1 == k then (k, v) else p) = Prod.fst := by
      funext p
      by_cases hp : p.1 = k <;> simp [hp]
    rw [he]
    exact h
  · rename_i hany
    rw [List.map_append, List.nodup_append]
    refine ⟨h, by simp, ?_⟩
    intro x hx hx2
    have hxk : x = k := by simpa using hx2
    obtain ⟨p, hpm, hpk⟩ := List.mem_map.mp hx
    have hany' : m.any (fun p => p.1 == k) = false := by
      cases hb : m.any (fun p => p.1 == k) with
      | true => exact absurd hb hany
      | false => rfl
    exact List.any_eq_false.mp hany' p hpm (by simp [hpk.trans hxk])

theorem buildOutputsMap_nodup (env : Env) (recips : List Recipient) :
    ∀ m out : List (Nat × Nat), (m.map Prod.fst).Nodup →
      buildOutputsMap env recips m = some out → (out.map Prod.fst).Nodup := by
  induction recips with
  | nil =>
    intro m out hm h
    simp only [buildOutputsMap, Option.some.injEq] at h
    subst h
    exact hm
  | cons r0 rest ih =>
    intro m out hm h
    cases hpa : env.parseAddr r0.address.value with
    | none =>
      cases hamt : r0.amountSats env <;> simp [buildOutputsMap, hpa, hamt] at h
    | some a =>
      cases hamt : r0.amountSats env with
      | error e => simp [buildOutputsMap, hpa, hamt] at h
      | ok w =>
        simp only [buildOutputsMap, hpa, hamt] at h
        exact ih _ _ (hmInsert_keys_nodup m a w hm) h

theorem hmGet_count_one (out : List (Nat × Nat)) (k x : Nat)
    (hnd : (out.map Prod.fst).Nodup) (h : hmGet out k = some x) :
    out.countP (fun p => p.1 == k) = 1 := by
  obtain ⟨p, hp⟩ : ∃ p, out.find? (fun q => q.1 == k) = some p := by
    cases hf : out.find? (fun q => q.1 == k) with
    | none =>
      unfold hmGet at h
      rw [hf] at h
      simp at h
    | some p => exact ⟨p, rfl⟩
  have hpm : p ∈ out := List.mem_of_find?_eq_some hp
  have hpk : p.1 = k := by simpa using List.find?_some hp
  have hmem : k ∈ out.map Prod.fst := List.mem_map.mpr ⟨p, hpm, hpk⟩
  have h1 : 0 < (out.map Prod.fst).count k := List.count_pos_iff.mpr hmem
  have h2 : (out.map Prod.fst).count k ≤ 1 := List.nodup_iff_count_le_one.mp hnd k
  have h3 : out.countP (fun p => p.1 == k) = (out.map Prod.fst).count k := by
    rw [List.count_eq_countP, List.countP_map]
    rfl
  omega

set_option linter.unusedVariables false in
/-- C3: when the Generate request is built over recipients carrying textually
equal address strings (and no other recipient's address parses to the same
key), the outputs map contains exactly one entry for that parsed address,
holding the amount of the last such recipient in the list; the earlier
duplicates' amounts are dropped. -/
theorem generate_outputs_last_wins (env : Env) (s t : DefineSpend) (req : Request)
    (i j : Nat) (ri rj rl : Recipient) (k : Nat)
    (hstep : s.step env (Msg.view CreateSpendMessage.generate)
      = some (t, some (Effect.generate req)))
    (hij : i < j) (hi : s.recipients.get? i = some ri) (hj : s.recipients.get? j = some rj)
    (heq : ri.address.value = rj.address.value)
    (hk : env.parseAddr ri.address.value = some k)
    (hcluster : ∀ r ∈ s.recipients, env.parseAddr r.address.value = some k →
      r.address.value = ri.address.value)
    (hlast : (s.recipients.filter (fun r => r.address.value == ri.address.value)).getLast?
      = some rl) :
    (∃ v, rl.amountSats env = Except.ok v ∧ hmGet req.outputs k = some v)
      ∧ req.outputs.countP (fun p => p.1 == k) = 1 := by
  simp only [DefineSpend.step] at hstep
  split at hstep
  · exact absurd hstep (by simp)
  · rename_i outs houts
    simp only [Option.some.injEq, Prod.mk.injEq, Effect.generate.injEq] at hstep
    obtain ⟨h1, h2⟩ := hstep
    subst h2
    have hfeq : s.recipients.filter (fun r => r.address.value == ri.address.value)
        = s.recipients.filter (fun r => env.parseAddr r.address.value == some k) := by
      apply List.filter_congr
      intro x hx
      by_cases hxx : x.address.value = ri.address.value
      · simp only [hxx, hk, beq_self_eq_true]
      · have hnk : env.parseAddr x.address.value ≠ some k := by
          intro hc
          exact hxx (hcluster x hx hc)
        simp [hxx, hnk]
    have hlast2 : (s.recipients.filter
        (fun r => env.parseAddr r.address.value == some k)).getLast? = some rl := by
      rw [← hfeq]
      exact hlast
    have hrlmem : rl ∈ s.recipients.filter
        (fun r => env.parseAddr r.address.value == some k) := by
      obtain ⟨ys, hys⟩ := List.getLast?_eq_some_iff.mp hlast2
      rw [hys]
      simp
    have hrlrec : rl ∈ s.recipients := (List.mem_filter.mp hrlmem).1
    obtain ⟨a0, w, hpa0, hok⟩ := buildOutputsMap_ok env s.recipients [] outs houts rl hrlrec
    have hget := buildOutputsMap_get env s.recipients [] outs houts k
    rw [hlast2] at hget
    have hval : hmGet outs k = some w := by
      rw [hget]
      show (Recipient.amountSats env rl).toOption = some w
      rw [hok]
      rfl
    refine ⟨⟨w, hok, hval⟩, ?_⟩
    exact hmGet_count_one outs k w
      (buildOutputsMap_nodup env s.recipients [] outs (by simp) houts) hval

/-- Witness for C3 at the concrete draft sC3 (two recipients with the same
address text, 1 BTC then 2 BTC): the request carries one output for the
parsed address, holding the last recipient's 2 BTC. -/
theorem generate_outputs_last_wins_witness :
    (∃ v, recipX2.amountSats envA = Except.ok v ∧ hmGet reqC3.outputs 7 = some v)
      ∧ reqC3.outputs.countP (fun p => p.1 == 7) = 1 :=
  generate_outputs_last_wins envA sC3 sC3 reqC3 0 1 recipX1 recipX2 recipX2 7
    (by decide) (by decide) (by decide) (by decide) (by decide) (by decide)
    (by decide) (by decide)

end LianaSpend
